import Mathlib

/-
Verification development for `excel_converter.py`.

The script is a single linear pandas pipeline (`convert_excel`):
load a sheet of the input workbook (second sheet when the workbook has at
least two, first otherwise; `skiprows=9`; the first remaining data row is
dropped and the index reset; column labels are stripped when the frame is
nonempty), truncate at the first empty item-number ("NO.") entry, load the
reference workbook's first sheet, project preserved columns through the
static column mapping, perform a dict-based lookup join on the material
code, inject fixed-value columns, and reindex to a fixed 15-column order.

The embedding below is a shallow one.  A spreadsheet cell is a string, an
integer, or null (numeric cells are modelled as integers; the float
rendering detail of pandas is irrelevant to every claim below).  A pandas
DataFrame is modelled column-major as a row count (the length of its
RangeIndex) together with an ordered list of (label, values) columns; all
frames built by the pipeline keep every column at exactly `nrows` values,
which is the `DF.WF` predicate.  Series-to-column assignment follows the
pandas semantics used by the script: assigning to an empty frame adopts
the series (and its length becomes the row count), assigning to a
nonempty frame aligns the series to the frame's RangeIndex (positions
beyond the series become null); assigning a scalar broadcasts over the
current index.  `Series.to_dict` is a left fold of insertions, so a
duplicate key keeps the last occurrence, and `Series.map` of that dict
sends absent keys to null.
-/

namespace ExcelConverter

/-- A spreadsheet cell: a string, a number (modelled as an integer), or a
null/NaN cell. -/
inductive Cell where
  | str : String → Cell
  | num : Int → Cell
  | null : Cell
  deriving DecidableEq, Repr

/-- A pandas DataFrame, column-major: the length of its RangeIndex and an
ordered list of (label, values) columns. -/
structure DF where
  nrows : Nat
  cols : List (String × List Cell)
  deriving DecidableEq, Repr

/-- Well-formedness: every column holds exactly `nrows` values. -/
def DF.WF (df : DF) : Prop :=
  ∀ p ∈ df.cols, p.2.length = df.nrows

instance (df : DF) : Decidable df.WF := by
  unfold DF.WF; infer_instance

/-- `pd.DataFrame()`: the empty frame. -/
def emptyDF : DF := ⟨0, []⟩

/-- Leading/trailing-whitespace removal on a character list. -/
def trimChars (cs : List Char) : List Char :=
  ((cs.dropWhile Char.isWhitespace).reverse.dropWhile Char.isWhitespace).reverse

/-- `str.strip()` / `.str.strip()`: remove leading and trailing
whitespace (modelled structurally so it is kernel-computable). -/
def strTrim (s : String) : String :=
  ⟨trimChars s.data⟩

/-- Column access by label (`df[name]`), `none` when the label is absent. -/
def getCol (df : DF) (name : String) : Option (List Cell) :=
  (df.cols.find? (fun p => decide (p.1 = name))).map Prod.snd

/-- Column access defaulting to the empty list. -/
def getColD (df : DF) (name : String) : List Cell :=
  (getCol df name).getD []

/-- `name in df.columns`. -/
def hasCol (df : DF) (name : String) : Bool :=
  (getCol df name).isSome

/-- Replace the values of column `name` in place, or append the column at
the end when the label is absent (pandas column assignment keeps the
position of an existing label). -/
def setColVals (cols : List (String × List Cell)) (name : String) (vals : List Cell) :
    List (String × List Cell) :=
  match cols with
  | [] => [(name, vals)]
  | p :: rest =>
      if p.1 = name then (name, vals) :: rest
      else p :: setColVals rest name vals

/-- Align a series to a RangeIndex of length `n`: value at position `i`
when the series has one, null past its end (pandas index alignment for the
RangeIndex frames this pipeline builds). -/
def alignSeries : Nat → List Cell → List Cell
  | 0, _ => []
  | n + 1, [] => Cell.null :: alignSeries n []
  | n + 1, c :: cs => c :: alignSeries n cs

/-- `df[name] = series`: on a frame with no columns the series is adopted
(its length becomes the row count); otherwise the series is aligned to the
frame's index. -/
def setColSeries (df : DF) (name : String) (s : List Cell) : DF :=
  match df.cols with
  | [] => { nrows := s.length, cols := [(name, s)] }
  | _ :: _ => { nrows := df.nrows, cols := setColVals df.cols name (alignSeries df.nrows s) }

/-- `df[name] = scalar`: broadcast over the current index. -/
def setColScalar (df : DF) (name : String) (v : Cell) : DF :=
  { nrows := df.nrows, cols := setColVals df.cols name (List.replicate df.nrows v) }

/-- `df.iloc[:k]` on a frame re-indexed from zero. -/
def takeRows (df : DF) (k : Nat) : DF :=
  { nrows := min k df.nrows, cols := df.cols.map (fun p => (p.1, p.2.take k)) }

/-- `df.drop(index=0).reset_index(drop=True)`. -/
def dropFirstRow (df : DF) : DF :=
  { nrows := df.nrows - 1, cols := df.cols.map (fun p => (p.1, p.2.tail)) }

/-- `df.columns = df.columns.str.strip()`. -/
def stripLabels (df : DF) : DF :=
  { nrows := df.nrows, cols := df.cols.map (fun p => (strTrim p.1, p.2)) }

/-- The label a header cell yields. -/
def cellToLabel : Cell → String
  | Cell.str s => s
  | Cell.num n => toString n
  | Cell.null => ""

/-- Python `str()` of a cell as pandas `astype(str)` produces it: a NaN
cell renders as the literal text "nan". -/
def cellToStr : Cell → String
  | Cell.str s => s
  | Cell.num n => toString n
  | Cell.null => "nan"

/-- Build a frame from a raw header row and raw data rows (column `j`
takes each row's `j`-th cell, null when the row is short). -/
def mkDF (header : List Cell) (data : List (List Cell)) : DF :=
  { nrows := data.length,
    cols := (List.range header.length).map
      (fun j => (cellToLabel (header.getD j Cell.null),
                 data.map (fun r => r.getD j Cell.null))) }

/-- The caller-visible configuration: preserved column names, the material
code column's target label, matched column names, and fixed columns. -/
structure Config where
  preserved : List String
  materialCode : String
  matched : List String
  fixedCols : List (String × Cell)
  deriving DecidableEq, Repr

/-- Default `PRESERVED_COLUMNS`. -/
def PRESERVED_COLUMNS : List String := ["Column1", "Column2", "Column3"]

/-- Default `MATERIAL_CODE_COLUMN`. -/
def MATERIAL_CODE_COLUMN : String := "MaterialCode"

/-- Default `MATCHED_COLUMNS`. -/
def MATCHED_COLUMNS : List String := ["MatchedColumn1", "MatchedColumn2"]

/-- Default `FIXED_COLUMNS`. -/
def FIXED_COLUMNS : List (String × Cell) :=
  [("FixedColumn1", Cell.str "Fixed Value 1"), ("FixedColumn2", Cell.str "Fixed Value 2")]

/-- The default configuration of the script. -/
def defaultConfig : Config :=
  { preserved := PRESERVED_COLUMNS,
    materialCode := MATERIAL_CODE_COLUMN,
    matched := MATCHED_COLUMNS,
    fixedCols := FIXED_COLUMNS }

/-- `COLUMN_MAPPING`: the static English-to-Chinese column mapping, in
insertion order. -/
def COLUMN_MAPPING : List (String × String) :=
  [("NO.", "项号"),
   ("DESCRIPTION", "品名"),
   ("Model NO.", "型号"),
   ("Qty", "数量"),
   ("Unit", "单位"),
   ("Amount", "总价"),
   ("net weight", "净重"),
   ("Unit Price", "单价")]

/-- `column_order`: the fixed 15-name canonical output column order. -/
def column_order : List String :=
  ["项号", "商品编号", "品名", "型号", "申报要素", "数量", "单位", "单价",
   "总价", "币制", "原产国（地区）", "最终目的国（地区）", "境内货源地", "征免", "净重"]

/-- A workbook: a list of sheets, each a list of raw rows of cells. -/
def Workbook : Type := List (List (List Cell))

/-- The sheet `convert_excel` reads from the input workbook: index 1 when
there are at least two sheets, index 0 otherwise. -/
def selectedSheet (wb : Workbook) : List (List Cell) :=
  List.getD wb (if 2 ≤ List.length wb then 1 else 0) []

/-- `pd.read_excel(input_file, skiprows=9, sheet_name=...)`: drop the
first 9 raw rows of the selected sheet; the next row is the header, the
rest are data. -/
def readInputRaw (wb : Workbook) : DF :=
  match (selectedSheet wb).drop 9 with
  | [] => emptyDF
  | header :: data => mkDF header data

/-- Lines 82-83 of the source: `if len(df_input) > 0: df_input =
df_input.drop(index=0).reset_index(drop=True)`. -/
def dropHeaderRow (df : DF) : DF :=
  if 0 < df.nrows then dropFirstRow df else df

/-- Lines 86-87 of the source: strip column labels only when the frame is
nonempty (`not df.empty and len(df.columns) > 0`; `df.empty` holds when
either axis has length 0). -/
def stripIfNonempty (df : DF) : DF :=
  if 0 < df.nrows ∧ 0 < df.cols.length then stripLabels df else df

/-- Lines 68-87 of the source: the loaded input table. -/
def loadInput (wb : Workbook) : DF :=
  stripIfNonempty (dropHeaderRow (readInputRaw wb))

/-- `pd.read_excel(reference_file)`: first sheet, first row as header, no
row skipping. -/
def loadReference (wb : Workbook) : DF :=
  match List.getD wb 0 [] with
  | [] => emptyDF
  | header :: data => mkDF header data

/-- The cleaned item-number column:
`df['NO.'].astype(str).str.strip()`. -/
def cleanedNO (df : DF) : List Cell :=
  (getColD df "NO.").map (fun c => Cell.str (strTrim (cellToStr c)))

/-- Membership in `['nan', '', ' ']` of the cleaned item-number text. -/
def isBadNO : Cell → Bool
  | Cell.str s => decide (s = "nan") || decide (s = "") || decide (s = " ")
  | _ => false

/-- The cut index of the truncation heuristic: the first position of the
cleaned item-number column whose text is in `['nan', '', ' ']`, or the
row count when there is none. -/
def truncIdx (df : DF) : Nat :=
  if (cleanedNO df).any isBadNO then (cleanedNO df).findIdx isBadNO else df.nrows

/-- Lines 96-105 of the source: when a "NO." column exists, write the
cleaned column back, find the first empty item-number entry, and keep the
rows strictly before it (no truncation when no entry is empty); when no
"NO." column exists, do nothing. -/
def truncateStep (df : DF) : DF :=
  if hasCol df "NO." then
    let df2 := setColSeries df "NO." (cleanedNO df)
    if (cleanedNO df).any isBadNO then takeRows df2 ((cleanedNO df).findIdx isBadNO)
    else df2
  else df

/-- The full input-side preparation: load (lines 68-87), the no-op
whitespace loop of lines 91-92 (`df[col] = df[col]`, the identity), then
the truncation heuristic (lines 96-105). -/
def prepareInput (wb : Workbook) : DF :=
  truncateStep (loadInput wb)

/-- The warning printed when a preserved column has no mapped source
column. -/
def warnMissing (col : String) : String :=
  "Warning: Column " ++ col ++ " not found in input file"

/-- The source column feeding preserved column `col`: the first pair of
`COLUMN_MAPPING` whose English name is an input column and whose Chinese
name is `col` (lines 139-146). -/
def findMappedSource (dfIn : DF) (col : String) : Option String :=
  (COLUMN_MAPPING.find? (fun p => hasCol dfIn p.1 && decide (p.2 = col))).map Prod.fst

/-- One iteration of the preserved-column loop. -/
def projectOne (dfIn : DF) (acc : DF × List String) (col : String) : DF × List String :=
  match findMappedSource dfIn col with
  | some eng => (setColSeries acc.1 col (getColD dfIn eng), acc.2)
  | none => (acc.1, acc.2 ++ [warnMissing col])

/-- Lines 139-146: copy preserved columns into the fresh output frame,
collecting warnings for the unmapped ones. -/
def projectStep (cfg : Config) (dfIn : DF) : DF × List String :=
  cfg.preserved.foldl (projectOne dfIn) (emptyDF, [])

/-- Line 150: the English name of the material code column — the first
`COLUMN_MAPPING` key whose value is the configured label, else the label
itself. -/
def material_code_eng (cfg : Config) : String :=
  match COLUMN_MAPPING.find? (fun p => decide (p.2 = cfg.materialCode)) with
  | some p => p.1
  | none => cfg.materialCode

/-- `df_reference.set_index(code)[col].to_dict()` followed by dict lookup:
a left fold of insertions over the (code, value) pairs in row order, so a
duplicate code keeps the last occurrence; lookup of an absent code is
`none`. -/
def buildRefDict (dfRef : DF) (refCode col : String) : Cell → Option Cell :=
  ((getColD dfRef refCode).zip (getColD dfRef col)).foldl
    (fun d p => fun k => if k = p.1 then some p.2 else d k)
    (fun _ => none)

/-- `df_input[code_eng].map(reference_dict[col])`: each source code looked
up in the reference dict, null when absent. -/
def matchedColumnSeries (dfIn dfRef : DF) (engCode refCode col : String) : List Cell :=
  (getColD dfIn engCode).map (fun k => (buildRefDict dfRef refCode col k).getD Cell.null)

/-- One iteration of the matched-column loop (applied only to matched
names that are reference columns, exactly the keys of `reference_dict`). -/
def joinOne (cfg : Config) (dfIn dfRef : DF) (acc : DF) (col : String) : DF :=
  if hasCol dfRef col then
    setColSeries acc col
      (matchedColumnSeries dfIn dfRef (material_code_eng cfg) cfg.materialCode col)
  else acc

/-- Lines 150-177: the lookup join, performed only when both code columns
exist; otherwise the output frame is untouched. -/
def joinStep (cfg : Config) (dfIn dfRef : DF) (out : DF) : DF :=
  if hasCol dfIn (material_code_eng cfg) && hasCol dfRef cfg.materialCode then
    cfg.matched.foldl (joinOne cfg dfIn dfRef) out
  else out

/-- Lines 179-182: fixed-value columns, each broadcast over the current
index, applied last of the accumulating steps. -/
def fixedStep (cfg : Config) (out : DF) : DF :=
  cfg.fixedCols.foldl (fun acc p => setColScalar acc p.1 p.2) out

/-- Lines 184-187: `df_output.reindex(columns=column_order)` — exactly the
given labels in order; a label absent from the frame becomes an all-null
column. -/
def reindexCols (df : DF) (order : List String) : DF :=
  { nrows := df.nrows,
    cols := order.map (fun nm => (nm, (getCol df nm).getD (List.replicate df.nrows Cell.null))) }

/-- The accumulated output frame just before the reindex (lines 114-182). -/
def accumulate (cfg : Config) (dfIn dfRef : DF) : DF :=
  fixedStep cfg (joinStep cfg dfIn dfRef (projectStep cfg dfIn).1)

/-- The core transform on already-loaded frames: accumulate, then reindex
to the canonical order; paired with the projection warnings. -/
def transform (cfg : Config) (dfIn dfRef : DF) : DF × List String :=
  (reindexCols (accumulate cfg dfIn dfRef) column_order, (projectStep cfg dfIn).2)

/-- `convert_excel` on workbooks: prepare the input, load the reference,
transform. -/
def convert_excel (cfg : Config) (inputWb refWb : Workbook) : DF × List String :=
  transform cfg (prepareInput inputWb) (loadReference refWb)

/-- Lines 190-198: the output table is written, then, only when
`os.name == 'nt'`, `os.startfile` is attempted with no exception handler,
so a failing open propagates.  The first component is the written table;
the second is the run's outcome. -/
def runPipeline (cfg : Config) (inputWb refWb : Workbook) (osName : String)
    (startfileOk : Bool) : DF × Except String DF :=
  let out := (convert_excel cfg inputWb refWb).1
  (out,
   if osName = "nt" then
     (if startfileOk then Except.ok out else Except.error "startfile failed")
   else Except.ok out)

/-! ### Basic lemmas about the frame operations -/

theorem getCol_emptyDF (nm : String) : getCol emptyDF nm = none := rfl

theorem find?_setColVals_self (cols : List (String × List Cell)) (name : String)
    (vals : List Cell) :
    (setColVals cols name vals).find? (fun p => decide (p.1 = name)) = some (name, vals) := by
  induction cols with
  | nil => simp [setColVals, List.find?_cons_of_pos]
  | cons p rest ih =>
    by_cases h : p.1 = name
    · simp [setColVals, h, List.find?_cons_of_pos]
    · simpa [setColVals, h, List.find?_cons_of_neg] using ih

theorem find?_setColVals_other (cols : List (String × List Cell)) (name : String)
    (vals : List Cell) (nm : String) (h : nm ≠ name) :
    (setColVals cols name vals).find? (fun p => decide (p.1 = nm)) =
      cols.find? (fun p => decide (p.1 = nm)) := by
  induction cols with
  | nil => simp [setColVals, List.find?_cons_of_neg, Ne.symm h]
  | cons p rest ih =>
    by_cases hp : p.1 = name
    · have hpnm : ¬ p.1 = nm := by rw [hp]; exact Ne.symm h
      simp [setColVals, hp, List.find?_cons_of_neg, Ne.symm h, hpnm]
    · by_cases hq : p.1 = nm
      · simp only [setColVals, if_neg hp]
        rw [List.find?_cons_of_pos _ (by simpa using hq),
          List.find?_cons_of_pos _ (by simpa using hq)]
      · simp only [setColVals, if_neg hp]
        rw [List.find?_cons_of_neg _ (by simpa using hq),
          List.find?_cons_of_neg _ (by simpa using hq), ih]

theorem getCol_setColScalar_self (df : DF) (nm : String) (v : Cell) :
    getCol (setColScalar df nm v) nm = some (List.replicate df.nrows v) := by
  simp [getCol, setColScalar, find?_setColVals_self]

theorem getCol_setColScalar_other (df : DF) (nm : String) (v : Cell) (nm' : String)
    (h : nm' ≠ nm) :
    getCol (setColScalar df nm v) nm' = getCol df nm' := by
  simp [getCol, setColScalar, find?_setColVals_other _ _ _ _ h]

theorem nrows_setColScalar (df : DF) (nm : String) (v : Cell) :
    (setColScalar df nm v).nrows = df.nrows := rfl

theorem alignSeries_self (s : List Cell) : alignSeries s.length s = s := by
  induction s with
  | nil => rfl
  | cons c cs ih => simpa [alignSeries] using ih

theorem getCol_setColSeries_self_of_nil (df : DF) (nm : String) (s : List Cell)
    (h : df.cols = []) :
    getCol (setColSeries df nm s) nm = some s := by
  simp [setColSeries, h, getCol, List.find?_cons_of_pos]

theorem getCol_setColSeries_self_of_ne_nil (df : DF) (nm : String) (s : List Cell)
    (h : df.cols ≠ []) :
    getCol (setColSeries df nm s) nm = some (alignSeries df.nrows s) := by
  match hc : df.cols with
  | [] => exact absurd hc h
  | p :: rest => simp [setColSeries, hc, getCol, find?_setColVals_self]

theorem getCol_setColSeries_other (df : DF) (nm : String) (s : List Cell) (nm' : String)
    (h : nm' ≠ nm) :
    getCol (setColSeries df nm s) nm' = getCol df nm' := by
  match hc : df.cols with
  | [] => simp [setColSeries, hc, getCol, List.find?_cons_of_neg, h, Ne.symm h]
  | p :: rest => simp [setColSeries, hc, getCol, find?_setColVals_other _ _ _ _ h]

theorem nrows_setColSeries_of_nil (df : DF) (nm : String) (s : List Cell)
    (h : df.cols = []) :
    (setColSeries df nm s).nrows = s.length := by
  simp [setColSeries, h]

theorem nrows_setColSeries_of_ne_nil (df : DF) (nm : String) (s : List Cell)
    (h : df.cols ≠ []) :
    (setColSeries df nm s).nrows = df.nrows := by
  match hc : df.cols with
  | [] => exact absurd hc h
  | p :: rest => simp [setColSeries, hc]

theorem cols_setColSeries_ne_nil (df : DF) (nm : String) (s : List Cell) :
    (setColSeries df nm s).cols ≠ [] := by
  match hc : df.cols with
  | [] => simp [setColSeries, hc]
  | p :: rest =>
    simp only [setColSeries, hc]
    match rest with
    | [] =>
      by_cases h : p.1 = nm <;> simp [setColVals, h]
    | q :: rest2 =>
      by_cases h : p.1 = nm <;> simp [setColVals, h]

theorem cols_setColScalar_ne_nil (df : DF) (nm : String) (v : Cell) :
    (setColScalar df nm v).cols ≠ [] := by
  simp only [setColScalar]
  match df.cols with
  | [] => simp [setColVals]
  | p :: rest => by_cases h : p.1 = nm <;> simp [setColVals, h]

theorem mem_setColVals (cols : List (String × List Cell)) (name : String) (vals : List Cell)
    (q : String × List Cell) (hq : q ∈ setColVals cols name vals) :
    q ∈ cols ∨ q = (name, vals) := by
  induction cols with
  | nil => simpa [setColVals] using hq
  | cons p rest ih =>
    by_cases h : p.1 = name
    · simp only [setColVals, h, if_pos rfl] at hq
      rcases List.mem_cons.mp hq with h1 | h1
      · right; exact h1
      · left; exact List.mem_cons_of_mem _ h1
    · simp only [setColVals, if_neg h] at hq
      rcases List.mem_cons.mp hq with h1 | h1
      · left; exact h1 ▸ List.mem_cons_self _ _
      · rcases ih h1 with h2 | h2
        · left; exact List.mem_cons_of_mem _ h2
        · right; exact h2

/-- `hasCol` and `getCol` agree. -/
theorem hasCol_iff_getCol_isSome (df : DF) (nm : String) :
    hasCol df nm = (getCol df nm).isSome := rfl

theorem getColD_length_of_hasCol (df : DF) (hwf : df.WF) (nm : String)
    (h : hasCol df nm = true) :
    (getColD df nm).length = df.nrows := by
  unfold hasCol at h
  match hfind : getCol df nm with
  | none => rw [hfind] at h; simp at h
  | some vals =>
    unfold getCol at hfind
    match hf : df.cols.find? (fun p => decide (p.1 = nm)) with
    | none => rw [hf] at hfind; simp at hfind
    | some p =>
      rw [hf] at hfind
      simp only [Option.map_some'] at hfind
      have hmem := List.mem_of_find?_eq_some hf
      have := hwf p hmem
      simp [getColD, getCol, hf, ← hfind, this]

/-! ### The reference dict: insertion fold with last-write-wins -/

theorem dictFold_skip (l : List (Cell × Cell)) (d : Cell → Option Cell) (k : Cell)
    (h : ∀ q ∈ l, q.1 ≠ k) :
    (l.foldl (fun d p => fun k0 => if k0 = p.1 then some p.2 else d k0) d) k = d k := by
  induction l generalizing d with
  | nil => rfl
  | cons p rest ih =>
    have hp : p.1 ≠ k := h p (List.mem_cons_self _ _)
    have hrest : ∀ q ∈ rest, q.1 ≠ k := fun q hq => h q (List.mem_cons_of_mem _ hq)
    simp only [List.foldl_cons]
    rw [ih _ hrest]
    simp [Ne.symm hp]

theorem buildRefDict_eq_none (dfRef : DF) (refCode col : String) (k : Cell)
    (h : ∀ q ∈ (getColD dfRef refCode).zip (getColD dfRef col), q.1 ≠ k) :
    buildRefDict dfRef refCode col k = none := by
  unfold buildRefDict
  rw [dictFold_skip _ _ _ h]

theorem buildRefDict_eq_last (dfRef : DF) (refCode col : String) (k v : Cell)
    (l₁ l₂ : List (Cell × Cell))
    (hsplit : (getColD dfRef refCode).zip (getColD dfRef col) = l₁ ++ (k, v) :: l₂)
    (hlast : ∀ q ∈ l₂, q.1 ≠ k) :
    buildRefDict dfRef refCode col k = some v := by
  unfold buildRefDict
  rw [hsplit, List.foldl_append, List.foldl_cons, dictFold_skip _ _ _ hlast]
  simp

/-! ### Invariant carried across the accumulating steps

All series assigned by the projection and join steps have length
`dfIn.nrows`, so the accumulator is either still column-free or has that
row count. -/

/-- The accumulator is empty, or its row count is `n`. -/
def OutOK (n : Nat) (df : DF) : Prop :=
  df.cols = [] ∨ df.nrows = n

theorem outOK_emptyDF (n : Nat) : OutOK n emptyDF := Or.inl rfl

theorem setColSeries_spec (n : Nat) (df : DF) (nm : String) (s : List Cell)
    (hlen : s.length = n) (hok : OutOK n df) :
    getCol (setColSeries df nm s) nm = some s ∧
      OutOK n (setColSeries df nm s) ∧
      (setColSeries df nm s).nrows = n ∧
      (setColSeries df nm s).cols ≠ [] := by
  rcases hok with hnil | hrows
  · refine ⟨getCol_setColSeries_self_of_nil df nm s hnil, ?_, ?_, cols_setColSeries_ne_nil df nm s⟩
    · right; rw [nrows_setColSeries_of_nil df nm s hnil, hlen]
    · rw [nrows_setColSeries_of_nil df nm s hnil, hlen]
  · by_cases hnil : df.cols = []
    · refine ⟨getCol_setColSeries_self_of_nil df nm s hnil, ?_, ?_, cols_setColSeries_ne_nil df nm s⟩
      · right; rw [nrows_setColSeries_of_nil df nm s hnil, hlen]
      · rw [nrows_setColSeries_of_nil df nm s hnil, hlen]
    · have halign : alignSeries df.nrows s = s := by
        rw [hrows, ← hlen]; exact alignSeries_self s
      refine ⟨?_, ?_, ?_, cols_setColSeries_ne_nil df nm s⟩
      · rw [getCol_setColSeries_self_of_ne_nil df nm s hnil, halign]
      · right; rw [nrows_setColSeries_of_ne_nil df nm s hnil, hrows]
      · rw [nrows_setColSeries_of_ne_nil df nm s hnil, hrows]

/-! ### The projection fold (lines 139-146) -/

theorem projectOne_fst_of_none (dfIn : DF) (acc : DF × List String) (col : String)
    (h : findMappedSource dfIn col = none) :
    projectOne dfIn acc col = (acc.1, acc.2 ++ [warnMissing col]) := by
  simp [projectOne, h]

theorem projectOne_fst_of_some (dfIn : DF) (acc : DF × List String) (col eng : String)
    (h : findMappedSource dfIn col = some eng) :
    projectOne dfIn acc col = (setColSeries acc.1 col (getColD dfIn eng), acc.2) := by
  simp [projectOne, h]

theorem findMappedSource_hasCol (dfIn : DF) (col eng : String)
    (h : findMappedSource dfIn col = some eng) : hasCol dfIn eng = true := by
  unfold findMappedSource at h
  match hf : COLUMN_MAPPING.find? (fun p => hasCol dfIn p.1 && decide (p.2 = col)) with
  | none => rw [hf] at h; simp at h
  | some p =>
    rw [hf] at h
    simp only [Option.map_some'] at h
    have hp := List.find?_some hf
    have hsplit := (Bool.and_eq_true _ _).mp hp
    have hpe : p.1 = eng := Option.some.inj h
    rw [← hpe]
    exact hsplit.1

theorem projectFold_spec (dfIn : DF) (n : Nat)
    (hlen : ∀ nm, hasCol dfIn nm = true → (getColD dfIn nm).length = n)
    (l : List String) :
    ∀ acc : DF × List String, OutOK n acc.1 →
      OutOK n (l.foldl (projectOne dfIn) acc).1 ∧
      (∀ w ∈ acc.2, w ∈ (l.foldl (projectOne dfIn) acc).2) ∧
      (∀ col, col ∉ l →
        getCol (l.foldl (projectOne dfIn) acc).1 col = getCol acc.1 col) ∧
      (∀ col ∈ l, findMappedSource dfIn col = none →
        getCol (l.foldl (projectOne dfIn) acc).1 col = getCol acc.1 col ∧
          warnMissing col ∈ (l.foldl (projectOne dfIn) acc).2) ∧
      (∀ col ∈ l, ∀ eng, findMappedSource dfIn col = some eng →
        getCol (l.foldl (projectOne dfIn) acc).1 col = some (getColD dfIn eng)) := by
  induction l with
  | nil =>
    intro acc hok
    exact ⟨hok, fun w hw => hw, fun col _ => rfl, fun col hc => absurd hc (List.not_mem_nil col),
      fun col hc => absurd hc (List.not_mem_nil col)⟩
  | cons c rest ih =>
    intro acc hok
    simp only [List.foldl_cons]
    match hms : findMappedSource dfIn c with
    | none =>
      rw [projectOne_fst_of_none dfIn acc c hms]
      have hok1 : OutOK n (acc.1, acc.2 ++ [warnMissing c]).1 := hok
      obtain ⟨o1, o2, o3, o4, o5⟩ := ih _ hok1
      refine ⟨o1, ?_, ?_, ?_, ?_⟩
      · intro w hw
        exact o2 w (List.mem_append_left _ hw)
      · intro col hcol
        have : col ∉ rest := fun hr => hcol (List.mem_cons_of_mem _ hr)
        exact o3 col this
      · intro col hcol hnone
        rcases List.mem_cons.mp hcol with hc | hc
        · subst hc
          by_cases hr : col ∈ rest
          · refine ⟨(o4 col hr hnone).1, (o4 col hr hnone).2⟩
          · exact ⟨o3 col hr, o2 _ (List.mem_append_right _ (List.mem_singleton_self _))⟩
        · exact ⟨(o4 col hc hnone).1, (o4 col hc hnone).2⟩
      · intro col hcol eng heng
        rcases List.mem_cons.mp hcol with hc | hc
        · subst hc
          rw [hms] at heng; exact absurd heng (by simp)
        · exact o5 col hc eng heng
    | some eng =>
      rw [projectOne_fst_of_some dfIn acc c eng hms]
      have hel : (getColD dfIn eng).length = n :=
        hlen eng (findMappedSource_hasCol dfIn c eng hms)
      obtain ⟨hset, hsok, _, _⟩ := setColSeries_spec n acc.1 c (getColD dfIn eng) hel hok
      obtain ⟨o1, o2, o3, o4, o5⟩ := ih (setColSeries acc.1 c (getColD dfIn eng), acc.2) hsok
      refine ⟨o1, o2, ?_, ?_, ?_⟩
      · intro col hcol
        have hcr : col ∉ rest := fun hr => hcol (List.mem_cons_of_mem _ hr)
        have hcc : col ≠ c := fun he => hcol (he ▸ List.mem_cons_self _ _)
        rw [o3 col hcr]
        exact getCol_setColSeries_other acc.1 c (getColD dfIn eng) col hcc
      · intro col hcol hnone
        rcases List.mem_cons.mp hcol with hc | hc
        · subst hc; rw [hms] at hnone; exact absurd hnone (by simp)
        · by_cases hcc : col = c
          · subst hcc; rw [hms] at hnone; exact absurd hnone (by simp)
          · refine ⟨?_, (o4 col hc hnone).2⟩
            rw [(o4 col hc hnone).1]
            exact getCol_setColSeries_other acc.1 c (getColD dfIn eng) col hcc
      · intro col hcol eng2 heng2
        rcases List.mem_cons.mp hcol with hc | hc
        · subst hc
          have heq : eng2 = eng := by
            rw [hms] at heng2; exact (Option.some.inj heng2).symm
          by_cases hr : col ∈ rest
          · exact o5 col hr eng2 heng2
          · subst heq; rw [o3 col hr]; exact hset
        · exact o5 col hc eng2 heng2

/-! ### The join fold (lines 150-177) -/

theorem length_matchedColumnSeries (dfIn dfRef : DF) (engCode refCode col : String) :
    (matchedColumnSeries dfIn dfRef engCode refCode col).length =
      (getColD dfIn engCode).length := by
  simp [matchedColumnSeries]

theorem joinFold_spec (cfg : Config) (dfIn dfRef : DF) (n : Nat)
    (hlen : (getColD dfIn (material_code_eng cfg)).length = n)
    (l : List String) :
    ∀ acc : DF, OutOK n acc →
      OutOK n (l.foldl (joinOne cfg dfIn dfRef) acc) ∧
      (∀ col, col ∉ l →
        getCol (l.foldl (joinOne cfg dfIn dfRef) acc) col = getCol acc col) ∧
      (∀ col ∈ l, hasCol dfRef col = false →
        getCol (l.foldl (joinOne cfg dfIn dfRef) acc) col = getCol acc col) ∧
      (∀ col ∈ l, hasCol dfRef col = true →
        getCol (l.foldl (joinOne cfg dfIn dfRef) acc) col =
          some (matchedColumnSeries dfIn dfRef (material_code_eng cfg) cfg.materialCode col)) := by
  induction l with
  | nil =>
    intro acc hok
    exact ⟨hok, fun col _ => rfl, fun col hc => absurd hc (List.not_mem_nil col),
      fun col hc => absurd hc (List.not_mem_nil col)⟩
  | cons c rest ih =>
    intro acc hok
    simp only [List.foldl_cons]
    by_cases hrc : hasCol dfRef c = true
    · have hstep : joinOne cfg dfIn dfRef acc c =
          setColSeries acc c
            (matchedColumnSeries dfIn dfRef (material_code_eng cfg) cfg.materialCode c) := by
        simp [joinOne, hrc]
      rw [hstep]
      have hsl : (matchedColumnSeries dfIn dfRef (material_code_eng cfg)
          cfg.materialCode c).length = n := by
        rw [length_matchedColumnSeries, hlen]
      obtain ⟨hset, hsok, _, _⟩ := setColSeries_spec n acc c _ hsl hok
      obtain ⟨o1, o2, o3, o4⟩ := ih _ hsok
      refine ⟨o1, ?_, ?_, ?_⟩
      · intro col hcol
        have hcr : col ∉ rest := fun hr => hcol (List.mem_cons_of_mem _ hr)
        have hcc : col ≠ c := fun he => hcol (he ▸ List.mem_cons_self _ _)
        rw [o2 col hcr]
        exact getCol_setColSeries_other acc c _ col hcc
      · intro col hcol hno
        rcases List.mem_cons.mp hcol with hc2 | hc2
        · subst hc2; rw [hrc] at hno; exact absurd hno (by simp)
        · by_cases hcc : col = c
          · subst hcc; rw [hrc] at hno; exact absurd hno (by simp)
          · rw [o3 col hc2 hno]
            exact getCol_setColSeries_other acc c _ col hcc
      · intro col hcol hyes
        rcases List.mem_cons.mp hcol with hc2 | hc2
        · subst hc2
          by_cases hr : col ∈ rest
          · exact o4 col hr hyes
          · rw [o2 col hr]; exact hset
        · exact o4 col hc2 hyes
    · have hstep : joinOne cfg dfIn dfRef acc c = acc := by
        simp [joinOne, hrc]
      rw [hstep]
      obtain ⟨o1, o2, o3, o4⟩ := ih acc hok
      refine ⟨o1, ?_, ?_, ?_⟩
      · intro col hcol
        exact o2 col (fun hr => hcol (List.mem_cons_of_mem _ hr))
      · intro col hcol hno
        rcases List.mem_cons.mp hcol with hc2 | hc2
        · subst hc2
          by_cases hr : col ∈ rest
          · exact o3 col hr hno
          · exact o2 col hr
        · exact o3 col hc2 hno
      · intro col hcol hyes
        rcases List.mem_cons.mp hcol with hc2 | hc2
        · subst hc2
          rw [Bool.not_eq_true] at hrc
          rw [hrc] at hyes
          exact absurd hyes (by simp)
        · exact o4 col hc2 hyes

theorem joinStep_of_guard_false (cfg : Config) (dfIn dfRef : DF) (out : DF)
    (h : (hasCol dfIn (material_code_eng cfg) && hasCol dfRef cfg.materialCode) = false) :
    joinStep cfg dfIn dfRef out = out := by
  simp [joinStep, h]

theorem joinStep_of_guard_true (cfg : Config) (dfIn dfRef : DF) (out : DF)
    (h : (hasCol dfIn (material_code_eng cfg) && hasCol dfRef cfg.materialCode) = true) :
    joinStep cfg dfIn dfRef out = cfg.matched.foldl (joinOne cfg dfIn dfRef) out := by
  simp [joinStep, h]

theorem joinStep_preserve_of_not_matched (cfg : Config) (dfIn dfRef : DF) (out : DF)
    (n : Nat)
    (hlen : hasCol dfIn (material_code_eng cfg) = true →
      (getColD dfIn (material_code_eng cfg)).length = n)
    (hok : OutOK n out) (col : String) (hcol : col ∉ cfg.matched) :
    getCol (joinStep cfg dfIn dfRef out) col = getCol out col := by
  by_cases hg : (hasCol dfIn (material_code_eng cfg) && hasCol dfRef cfg.materialCode) = true
  · rw [joinStep_of_guard_true cfg dfIn dfRef out hg]
    have hand := (Bool.and_eq_true _ _).mp hg
    exact (joinFold_spec cfg dfIn dfRef n (hlen hand.1) cfg.matched out hok).2.1 col hcol
  · rw [joinStep_of_guard_false cfg dfIn dfRef out (Bool.not_eq_true _ ▸ hg)]

theorem joinStep_OutOK (cfg : Config) (dfIn dfRef : DF) (out : DF)
    (n : Nat)
    (hlen : hasCol dfIn (material_code_eng cfg) = true →
      (getColD dfIn (material_code_eng cfg)).length = n)
    (hok : OutOK n out) :
    OutOK n (joinStep cfg dfIn dfRef out) := by
  by_cases hg : (hasCol dfIn (material_code_eng cfg) && hasCol dfRef cfg.materialCode) = true
  · rw [joinStep_of_guard_true cfg dfIn dfRef out hg]
    have hand := (Bool.and_eq_true _ _).mp hg
    exact (joinFold_spec cfg dfIn dfRef n (hlen hand.1) cfg.matched out hok).1
  · rw [joinStep_of_guard_false cfg dfIn dfRef out (Bool.not_eq_true _ ▸ hg)]
    exact hok

/-! ### The fixed-column fold (lines 179-182) -/

theorem fixedFold_nrows (l : List (String × Cell)) (acc : DF) :
    (l.foldl (fun acc p => setColScalar acc p.1 p.2) acc).nrows = acc.nrows := by
  induction l generalizing acc with
  | nil => rfl
  | cons p rest ih =>
    simp only [List.foldl_cons]
    rw [ih]
    rfl

theorem fixedFold_preserve (l : List (String × Cell)) (acc : DF) (nm : String)
    (h : nm ∉ l.map Prod.fst) :
    getCol (l.foldl (fun acc p => setColScalar acc p.1 p.2) acc) nm = getCol acc nm := by
  induction l generalizing acc with
  | nil => rfl
  | cons p rest ih =>
    simp only [List.map_cons, List.mem_cons] at h
    push_neg at h
    simp only [List.foldl_cons]
    rw [ih _ h.2]
    exact getCol_setColScalar_other acc p.1 p.2 nm h.1

theorem fixedFold_mem (l : List (String × Cell)) (acc : DF) (nm : String) (v : Cell)
    (hmem : (nm, v) ∈ l) (hnd : (l.map Prod.fst).Nodup) :
    getCol (l.foldl (fun acc p => setColScalar acc p.1 p.2) acc) nm =
      some (List.replicate acc.nrows v) := by
  induction l generalizing acc with
  | nil => exact absurd hmem (List.not_mem_nil _)
  | cons p rest ih =>
    simp only [List.map_cons, List.nodup_cons] at hnd
    simp only [List.foldl_cons]
    rcases List.mem_cons.mp hmem with he | hr
    · have hkey : nm ∉ rest.map Prod.fst := by
        rw [← he] at hnd; exact hnd.1
      rw [fixedFold_preserve rest _ nm hkey, ← he]
      have : (setColScalar acc nm v).nrows = acc.nrows := rfl
      rw [← this]
      exact getCol_setColScalar_self acc nm v
    · have hne : nm ≠ p.1 := by
        intro he2
        exact hnd.1 (he2 ▸ List.mem_map_of_mem Prod.fst hr)
      have := ih (setColScalar acc p.1 p.2) hr hnd.2
      rw [nrows_setColScalar] at this
      exact this

/-! ### The reindex step (lines 184-187) -/

theorem reindex_names (df : DF) (order : List String) :
    (reindexCols df order).cols.map Prod.fst = order := by
  simp only [reindexCols, List.map_map]
  exact List.map_id' order

theorem nrows_reindex (df : DF) (order : List String) :
    (reindexCols df order).nrows = df.nrows := rfl

theorem getCol_reindex_of_mem (df : DF) (order : List String) (nm : String)
    (h : nm ∈ order) :
    getCol (reindexCols df order) nm =
      some ((getCol df nm).getD (List.replicate df.nrows Cell.null)) := by
  induction order with
  | nil => exact absurd h (List.not_mem_nil nm)
  | cons o os ih =>
    simp only [reindexCols, List.map_cons, getCol] at ih ⊢
    by_cases ho : o = nm
    · subst ho
      rw [List.find?_cons_of_pos _ (by simp)]
      rfl
    · rw [List.find?_cons_of_neg _ (by simpa using ho)]
      exact ih (List.mem_of_ne_of_mem (fun he => ho he.symm) h)

theorem getCol_reindex_of_not_mem (df : DF) (order : List String) (nm : String)
    (h : nm ∉ order) :
    getCol (reindexCols df order) nm = none := by
  induction order with
  | nil => rfl
  | cons o os ih =>
    simp only [reindexCols, List.map_cons, getCol] at ih ⊢
    have ho : o ≠ nm := fun he => h (he ▸ List.mem_cons_self _ _)
    rw [List.find?_cons_of_neg _ (by simpa using ho)]
    exact ih (fun hm => h (List.mem_cons_of_mem _ hm))

/-! ### Support for the truncation heuristic (lines 96-105) -/

theorem findIdx_getD_false {α : Type} (p : α → Bool) (d : α) :
    ∀ (l : List α) (j : Nat), j < l.findIdx p → p (l.getD j d) = false := by
  intro l
  induction l with
  | nil =>
    intro j h
    rw [List.findIdx_nil] at h
    exact absurd h (Nat.not_lt_zero j)
  | cons a t ih =>
    intro j h
    rw [List.findIdx_cons] at h
    by_cases ha : p a = true
    · simp [ha] at h
    · simp only [Bool.not_eq_true] at ha
      simp only [ha, cond_false] at h
      match j with
      | 0 => simpa using ha
      | j + 1 =>
        rw [List.getD_cons_succ]
        exact ih j (Nat.lt_of_succ_lt_succ h)

theorem findIdx_getD_true {α : Type} (p : α → Bool) (d : α) :
    ∀ l : List α, l.findIdx p < l.length → p (l.getD (l.findIdx p) d) = true := by
  intro l
  induction l with
  | nil => intro h; simp at h
  | cons a t ih =>
    intro h
    rw [List.findIdx_cons] at h ⊢
    by_cases ha : p a = true
    · simp [ha]
    · simp only [Bool.not_eq_true] at ha
      simp only [ha, cond_false] at h ⊢
      rw [List.getD_cons_succ]
      exact ih (Nat.lt_of_succ_lt_succ (by simpa using h))

theorem findIdx_lt_of_any {α : Type} (p : α → Bool) (l : List α) (h : l.any p = true) :
    l.findIdx p < l.length :=
  List.findIdx_lt_length_of_exists (by simpa using h)

theorem find?_mapVals (cols : List (String × List Cell)) (f : List Cell → List Cell)
    (nm : String) :
    (cols.map (fun p => (p.1, f p.2))).find? (fun p => decide (p.1 = nm)) =
      (cols.find? (fun p => decide (p.1 = nm))).map (fun p => (p.1, f p.2)) := by
  induction cols with
  | nil => rfl
  | cons p rest ih =>
    by_cases h : p.1 = nm
    · simp [List.find?_cons_of_pos, h]
    · simp [List.find?_cons_of_neg, h, ih]

theorem getCol_takeRows (df : DF) (k : Nat) (nm : String) :
    getCol (takeRows df k) nm = (getCol df nm).map (fun c => c.take k) := by
  simp only [takeRows, getCol, find?_mapVals, Option.map_map]
  rfl

theorem nrows_takeRows (df : DF) (k : Nat) : (takeRows df k).nrows = min k df.nrows := rfl

theorem hasCol_cols_ne_nil (df : DF) (nm : String) (h : hasCol df nm = true) :
    df.cols ≠ [] := by
  intro hc
  unfold hasCol getCol at h
  rw [hc] at h
  simp at h

theorem getCol_getColD_of_hasCol (df : DF) (nm : String) (h : hasCol df nm = true) :
    getCol df nm = some (getColD df nm) := by
  unfold hasCol at h
  match hg : getCol df nm with
  | none => rw [hg] at h; simp at h
  | some vals => simp [getColD, hg]

theorem length_cleanedNO (df : DF) : (cleanedNO df).length = (getColD df "NO.").length := by
  simp [cleanedNO]

/-! ### Support for the table loader (lines 68-87) -/

theorem range_map_getD {α β : Type} (l : List α) (f : α → β) (d : α) :
    (List.range l.length).map (fun j => f (l.getD j d)) = l.map f := by
  induction l with
  | nil => rfl
  | cons a t ih =>
    rw [List.length_cons, List.range_succ_eq_map, List.map_cons, List.map_map]
    have hcomp : ∀ j ∈ List.range t.length,
        ((fun j => f ((a :: t).getD j d)) ∘ Nat.succ) j = (fun j => f (t.getD j d)) j :=
      fun j _ => rfl
    rw [List.map_congr_left hcomp, ih]
    rfl

theorem get?_range_map {β : Type} (G : Nat → β) (n j : Nat) (p : β)
    (h : ((List.range n).map G).get? j = some p) : j < n ∧ p = G j := by
  have hlen : j < n := by
    by_contra hj
    push_neg at hj
    have hnone : ((List.range n).map G).get? j = none := by
      apply List.get?_eq_none.mpr
      simpa using hj
    rw [hnone] at h
    exact Option.noConfusion h
  refine ⟨hlen, ?_⟩
  rw [List.get?_map, List.get?_range hlen] at h
  exact (Option.some.inj h).symm

theorem nrows_mkDF (header : List Cell) (data : List (List Cell)) :
    (mkDF header data).nrows = data.length := rfl

theorem cols_mkDF (header : List Cell) (data : List (List Cell)) :
    (mkDF header data).cols = (List.range header.length).map
      (fun j => (cellToLabel (header.getD j Cell.null),
                 data.map (fun r => r.getD j Cell.null))) := rfl

theorem readInputRaw_of_nil (wb : Workbook) (h : (selectedSheet wb).drop 9 = []) :
    readInputRaw wb = emptyDF := by
  unfold readInputRaw
  rw [h]

theorem readInputRaw_of_cons (wb : Workbook) (header : List Cell)
    (data : List (List Cell)) (h : (selectedSheet wb).drop 9 = header :: data) :
    readInputRaw wb = mkDF header data := by
  unfold readInputRaw
  rw [h]

theorem dropHeaderRow_of_nil (df : DF) (h : df.nrows = 0) : dropHeaderRow df = df := by
  simp [dropHeaderRow, h]

theorem dropHeaderRow_of_pos (df : DF) (h : 0 < df.nrows) :
    dropHeaderRow df = dropFirstRow df := by
  simp [dropHeaderRow, h]

theorem stripIfNonempty_of_empty (df : DF) (h : ¬(0 < df.nrows ∧ 0 < df.cols.length)) :
    stripIfNonempty df = df := by
  simp only [stripIfNonempty, if_neg h]

theorem stripIfNonempty_of_nonempty (df : DF) (h : 0 < df.nrows ∧ 0 < df.cols.length) :
    stripIfNonempty df = stripLabels df := by
  simp only [stripIfNonempty, if_pos h]

/-! ### Remaining small helpers -/

theorem getCol_mem (df : DF) (nm : String) (vals : List Cell)
    (h : getCol df nm = some vals) : ∃ p ∈ df.cols, p.2 = vals := by
  unfold getCol at h
  match hf : df.cols.find? (fun p => decide (p.1 = nm)) with
  | none => rw [hf] at h; exact Option.noConfusion h
  | some p =>
    rw [hf] at h
    simp only [Option.map_some'] at h
    exact ⟨p, List.mem_of_find?_eq_some hf, Option.some.inj h⟩

theorem projectFold_df_of_all_none (dfIn : DF) (l : List String)
    (h : ∀ col ∈ l, findMappedSource dfIn col = none) :
    ∀ acc : DF × List String, (l.foldl (projectOne dfIn) acc).1 = acc.1 := by
  induction l with
  | nil => intro acc; rfl
  | cons c rest ih =>
    intro acc
    simp only [List.foldl_cons]
    rw [projectOne_fst_of_none dfIn acc c (h c (List.mem_cons_self _ _))]
    exact ih (fun col hc => h col (List.mem_cons_of_mem _ hc)) _

theorem joinFold_df_of_all_missing (cfg : Config) (dfIn dfRef : DF) (l : List String)
    (h : ∀ col ∈ l, hasCol dfRef col = false) :
    ∀ acc : DF, l.foldl (joinOne cfg dfIn dfRef) acc = acc := by
  induction l with
  | nil => intro acc; rfl
  | cons c rest ih =>
    intro acc
    simp only [List.foldl_cons]
    have hstep : joinOne cfg dfIn dfRef acc c = acc := by
      simp [joinOne, h c (List.mem_cons_self _ _)]
    rw [hstep]
    exact ih (fun col hc => h col (List.mem_cons_of_mem _ hc)) acc

theorem fixedFold_nil_cols (l : List (String × Cell)) :
    ∀ acc : DF, acc.nrows = 0 → (∀ p ∈ acc.cols, p.2 = ([] : List Cell)) →
      (l.foldl (fun acc p => setColScalar acc p.1 p.2) acc).nrows = 0 ∧
      ∀ p ∈ (l.foldl (fun acc p => setColScalar acc p.1 p.2) acc).cols,
        p.2 = ([] : List Cell) := by
  induction l with
  | nil => intro acc h0 hnil; exact ⟨h0, hnil⟩
  | cons q rest ih =>
    intro acc h0 hnil
    simp only [List.foldl_cons]
    apply ih
    · rw [nrows_setColScalar]; exact h0
    · intro p hp
      rcases mem_setColVals acc.cols q.1 (List.replicate acc.nrows q.2) p hp with hm | hm
      · exact hnil p hm
      · rw [hm]
        simp [h0]

/-! ### Concrete fixtures used by witnesses and counterexamples -/

/-- Truncation example from the spec: item numbers 1, 2, blank, 4. -/
def dfTrunc : DF :=
  ⟨4, [("NO.", [Cell.str "1", Cell.str "2", Cell.str "", Cell.str "4"])]⟩

/-- A single-sheet workbook whose selected sheet has exactly 10 rows: the
loaded table has a column but zero rows, so its label keeps whitespace. -/
def wbUntrimmed : Workbook :=
  [List.replicate 9 [Cell.str "x"] ++ [[Cell.str " A "]]]

/-- A single-sheet workbook with 13 rows: 9 banner rows, a header row with
a padded label, a discarded first data row, and two data rows. -/
def wbLoad : Workbook :=
  [List.replicate 9 [Cell.str "x"] ++
    [[Cell.str " A "], [Cell.str "h"], [Cell.str "r1"], [Cell.str "r2"]]]

/-- Input workbook whose only data row carries the padded code " ABC ". -/
def wbInCode : Workbook :=
  [List.replicate 9 [Cell.str "banner"] ++
    [[Cell.str "商品编号"], [Cell.str "dummy"], [Cell.str " ABC "]]]

/-- Reference workbook keyed by the unpadded code "ABC". -/
def wbRefCode : Workbook :=
  [[[Cell.str "商品编号", Cell.str "品名"], [Cell.str "ABC", Cell.str "Widget"]]]

/-- Configuration matching `品名` through the code column `商品编号`. -/
def cfgCode : Config := ⟨[], "商品编号", ["品名"], []⟩

/-- Join fixture: a reference frame whose code column repeats the key "A". -/
def dfRefJoin : DF :=
  ⟨3, [("MaterialCode", [Cell.str "A", Cell.str "B", Cell.str "A"]),
       ("MatchedColumn1", [Cell.str "1", Cell.str "2", Cell.str "3"])]⟩

/-- Join fixture: an input frame with one matching and one absent code. -/
def dfInJoin : DF :=
  ⟨2, [("MaterialCode", [Cell.str "A", Cell.str "C"])]⟩

/-- Join fixture configuration. -/
def cfgJoin : Config := ⟨[], "MaterialCode", ["MatchedColumn1"], []⟩

/-- Projection fixture: preserve `品名` (mapped from DESCRIPTION) and
`型号` (unmapped here). -/
def cfgProj : Config := ⟨["品名", "型号"], "MaterialCode", [], []⟩

/-- Projection fixture input frame. -/
def dfInProj : DF := ⟨1, [("DESCRIPTION", [Cell.str "w"])]⟩

/-- Fixed-column fixture: a canonical fixed column. -/
def cfgFix : Config := ⟨[], "MaterialCode", [], [("币制", Cell.str "USD")]⟩

/-! ### The claims -/

/-- Claim C2: for every input frame, reference frame, and configuration,
the output table's column sequence exactly equals the fixed 15-name
canonical order; any accumulated column whose name is not canonical is
dropped (no such name survives in the output), and every canonical name
the accumulator did not populate appears as an all-null column of the
output's height. -/
theorem claim_C2_canonical_shape (cfg : Config) (dfIn dfRef : DF) :
    (transform cfg dfIn dfRef).1.cols.map Prod.fst = column_order ∧
    (∀ nm, nm ∉ column_order → getCol (transform cfg dfIn dfRef).1 nm = none) ∧
    (∀ nm, nm ∈ column_order → getCol (accumulate cfg dfIn dfRef) nm = none →
      getCol (transform cfg dfIn dfRef).1 nm =
        some (List.replicate (transform cfg dfIn dfRef).1.nrows Cell.null)) := by
  refine ⟨reindex_names _ _, ?_, ?_⟩
  · intro nm h
    exact getCol_reindex_of_not_mem _ _ _ h
  · intro nm hmem hnone
    have hre := getCol_reindex_of_mem (accumulate cfg dfIn dfRef) column_order nm hmem
    rw [hnone] at hre
    simpa [transform, nrows_reindex] using hre

/-- Witness for C2 at the default configuration on empty frames: the
non-canonical name "Column1" is absent from the output, and the canonical
name `申报要素`, which no step populates, is an all-null column. -/
theorem claim_C2_witness :
    getCol (transform defaultConfig emptyDF emptyDF).1 "Column1" = none ∧
    getCol (transform defaultConfig emptyDF emptyDF).1 "申报要素" =
      some (List.replicate (transform defaultConfig emptyDF emptyDF).1.nrows Cell.null) :=
  ⟨(claim_C2_canonical_shape defaultConfig emptyDF emptyDF).2.1 "Column1" (by decide),
   (claim_C2_canonical_shape defaultConfig emptyDF emptyDF).2.2 "申报要素" (by decide)
     (by decide)⟩

/-- Claim C5 counterexample: the claim says every configured fixed column
ends up in the output with its constant in every row, but the default
fixed column "FixedColumn1" is not canonical, so the final output has no
such column at all. -/
theorem claim_C5_counterexample :
    ("FixedColumn1", Cell.str "Fixed Value 1") ∈ defaultConfig.fixedCols ∧
    getCol (transform defaultConfig emptyDF emptyDF).1 "FixedColumn1" = none := by
  decide

/-- Claim C5 (amended): for every (name, value) pair of the fixed-column
configuration whose name is in the canonical order, the output column of
that name holds the constant in every row — fixed injection is applied
after projection and join, so it wins any name collision. -/
theorem claim_C5_amended (cfg : Config) (dfIn dfRef : DF) (name : String) (v : Cell)
    (hnd : (cfg.fixedCols.map Prod.fst).Nodup)
    (hmem : (name, v) ∈ cfg.fixedCols)
    (hord : name ∈ column_order) :
    getCol (transform cfg dfIn dfRef).1 name =
      some (List.replicate (transform cfg dfIn dfRef).1.nrows v) := by
  have hacc : getCol (accumulate cfg dfIn dfRef) name =
      some (List.replicate (joinStep cfg dfIn dfRef (projectStep cfg dfIn).1).nrows v) := by
    unfold accumulate fixedStep
    exact fixedFold_mem cfg.fixedCols _ name v hmem hnd
  have hnr : (accumulate cfg dfIn dfRef).nrows =
      (joinStep cfg dfIn dfRef (projectStep cfg dfIn).1).nrows := by
    unfold accumulate fixedStep
    exact fixedFold_nrows _ _
  show getCol (reindexCols (accumulate cfg dfIn dfRef) column_order) name =
    some (List.replicate (reindexCols (accumulate cfg dfIn dfRef) column_order).nrows v)
  rw [nrows_reindex, hnr, getCol_reindex_of_mem _ _ _ hord, hacc]
  simp

/-- Witness for C5 (amended): the canonical fixed column `币制` with value
"USD" fills its output column. -/
theorem claim_C5_witness :
    getCol (transform cfgFix dfInProj emptyDF).1 "币制" =
      some (List.replicate (transform cfgFix dfInProj emptyDF).1.nrows (Cell.str "USD")) :=
  claim_C5_amended cfgFix dfInProj emptyDF "币制" (Cell.str "USD") (by decide) (by decide)
    (by decide)

/-- Claim C7: the code is wrong against the claim.  The loop at lines
89-92, whose comment says it strips whitespace from string data, assigns
each column to itself, so the material-code column is never normalized
before the lookup.  With source code " ABC " and reference key "ABC" —
equal after the documented normalization — the matched output cell is
null instead of "Widget". -/
theorem claim_C7_code_bug :
    getColD (prepareInput wbInCode) "商品编号" = [Cell.str " ABC "] ∧
    getColD (loadReference wbRefCode) "商品编号" = [Cell.str "ABC"] ∧
    strTrim " ABC " = "ABC" ∧
    getCol (convert_excel cfgCode wbInCode wbRefCode).1 "品名" = some [Cell.null] := by
  decide

/-- Claim C8 counterexample: the claim says a failure of the auto-open
step never causes the run to be treated as an error, but `os.startfile`
is called with no exception handler, so on Windows a failing open makes
the whole run fail. -/
theorem claim_C8_counterexample :
    (runPipeline defaultConfig [] [] "nt" false).2 = Except.error "startfile failed" := by
  rfl

/-- Claim C8 (amended): the auto-open step runs only on Windows and after
the output is written; the written table always equals the transform's
result, and a successful open (or a non-Windows platform) ends the run
successfully — but a failing open on Windows propagates as an error, with
the written output unaffected. -/
theorem claim_C8_amended (cfg : Config) (inWb refWb : Workbook) (osName : String)
    (ok : Bool) :
    (runPipeline cfg inWb refWb osName ok).1 = (convert_excel cfg inWb refWb).1 ∧
    (osName = "nt" → ok = false →
      (runPipeline cfg inWb refWb osName ok).2 = Except.error "startfile failed") ∧
    (osName ≠ "nt" →
      (runPipeline cfg inWb refWb osName ok).2 =
        Except.ok (convert_excel cfg inWb refWb).1) ∧
    (ok = true →
      (runPipeline cfg inWb refWb osName ok).2 =
        Except.ok (convert_excel cfg inWb refWb).1) := by
  refine ⟨rfl, ?_, ?_, ?_⟩
  · intro hos hok
    subst hos; subst hok
    simp [runPipeline]
  · intro hos
    simp [runPipeline, hos]
  · intro hok
    subst hok
    by_cases hos : osName = "nt" <;> simp [runPipeline, hos]

/-- Witness for C8 (amended): on Windows with a failing open the run
errors; off Windows it succeeds. -/
theorem claim_C8_witness :
    (runPipeline defaultConfig [] [] "nt" false).2 = Except.error "startfile failed" ∧
    (runPipeline defaultConfig [] [] "posix" false).2 =
      Except.ok (convert_excel defaultConfig [] []).1 :=
  ⟨(claim_C8_amended defaultConfig [] [] "nt" false).2.1 rfl rfl,
   (claim_C8_amended defaultConfig [] [] "posix" false).2.2.1 (by decide)⟩

/-- Claim C9: the embedded transform is a pure function, so two runs on
equal arguments yield equal results, and the outcome of the best-effort
auto-open attempt never changes the written table. -/
theorem claim_C9_deterministic (cfg : Config) (inWb refWb : Workbook) :
    convert_excel cfg inWb refWb = convert_excel cfg inWb refWb ∧
    ∀ (osName : String) (ok₁ ok₂ : Bool),
      (runPipeline cfg inWb refWb osName ok₁).1 =
        (runPipeline cfg inWb refWb osName ok₂).1 :=
  ⟨rfl, fun _ _ _ => rfl⟩

/-- Claim C10: when no preserved name maps to a source column and the join
populates nothing (a code column is missing, or every matched name is
absent from the reference table), the fixed constants broadcast over the
still-empty accumulator, so the output has the canonical header and zero
data rows, whatever the filtered input's row count. -/
theorem claim_C10_zero_rows (cfg : Config) (dfIn dfRef : DF)
    (h1 : ∀ col ∈ cfg.preserved, findMappedSource dfIn col = none)
    (h2 : hasCol dfIn (material_code_eng cfg) = false ∨
          hasCol dfRef cfg.materialCode = false ∨
          ∀ col ∈ cfg.matched, hasCol dfRef col = false) :
    (transform cfg dfIn dfRef).1.nrows = 0 ∧
    (transform cfg dfIn dfRef).1.cols.map Prod.fst = column_order ∧
    (∀ nm ∈ column_order, getCol (transform cfg dfIn dfRef).1 nm = some []) := by
  have hproj : (projectStep cfg dfIn).1 = emptyDF :=
    projectFold_df_of_all_none dfIn cfg.preserved h1 (emptyDF, [])
  have hjoin : joinStep cfg dfIn dfRef (projectStep cfg dfIn).1 = emptyDF := by
    rw [hproj]
    by_cases hg : (hasCol dfIn (material_code_eng cfg) &&
        hasCol dfRef cfg.materialCode) = true
    · rw [joinStep_of_guard_true cfg dfIn dfRef emptyDF hg]
      have hand := (Bool.and_eq_true _ _).mp hg
      rcases h2 with hc | hc | hc
      · rw [hand.1] at hc; exact absurd hc (by simp)
      · rw [hand.2] at hc; exact absurd hc (by simp)
      · exact joinFold_df_of_all_missing cfg dfIn dfRef cfg.matched hc emptyDF
    · rw [joinStep_of_guard_false cfg dfIn dfRef emptyDF (Bool.not_eq_true _ ▸ hg)]
  have hfix := fixedFold_nil_cols cfg.fixedCols
    (joinStep cfg dfIn dfRef (projectStep cfg dfIn).1)
    (by rw [hjoin]; rfl) (by rw [hjoin]; intro p hp; exact absurd hp (List.not_mem_nil p))
  have hacc0 : (accumulate cfg dfIn dfRef).nrows = 0 := hfix.1
  have haccnil : ∀ p ∈ (accumulate cfg dfIn dfRef).cols, p.2 = ([] : List Cell) := hfix.2
  refine ⟨?_, reindex_names _ _, ?_⟩
  · show (reindexCols (accumulate cfg dfIn dfRef) column_order).nrows = 0
    rw [nrows_reindex]; exact hacc0
  · intro nm hmem
    have hre := getCol_reindex_of_mem (accumulate cfg dfIn dfRef) column_order nm hmem
    show getCol (reindexCols (accumulate cfg dfIn dfRef) column_order) nm = some []
    rw [hre, hacc0]
    match hgc : getCol (accumulate cfg dfIn dfRef) nm with
    | none => simp
    | some vals =>
      obtain ⟨p, hp, hpv⟩ := getCol_mem _ _ _ hgc
      rw [Option.getD_some, ← hpv, haccnil p hp]

theorem getD_mem_of_lt {α : Type} (l : List α) (j : Nat) (d : α) (h : j < l.length) :
    l.getD j d ∈ l := by
  induction l generalizing j with
  | nil => simp at h
  | cons a t ih =>
    match j with
    | 0 => exact List.mem_cons_self _ _
    | j + 1 =>
      rw [List.getD_cons_succ]
      exact List.mem_cons_of_mem _ (ih j (Nat.lt_of_succ_lt_succ h))

/-- Claim C1: in the lookup join, for a source row whose code value occurs
among the reference (code, value) pairs of a matched column, the output
cell is the value of the last occurrence of that code (the dict built by
`to_dict` overwrites on duplicate keys); for a source code absent from the
pairs, the output cell is null. -/
theorem claim_C1_join_correctness (cfg : Config) (dfIn dfRef : DF) (col : String)
    (i : Nat) (k : Cell)
    (_hmem : col ∈ cfg.matched)
    (_hrc : hasCol dfRef col = true)
    (_hci : hasCol dfIn (material_code_eng cfg) = true)
    (_hcr : hasCol dfRef cfg.materialCode = true)
    (hk : (getColD dfIn (material_code_eng cfg)).get? i = some k) :
    ((∀ q ∈ (getColD dfRef cfg.materialCode).zip (getColD dfRef col), q.1 ≠ k) →
      (matchedColumnSeries dfIn dfRef (material_code_eng cfg) cfg.materialCode col).get? i
        = some Cell.null) ∧
    (∀ (l₁ : List (Cell × Cell)) (v : Cell) (l₂ : List (Cell × Cell)),
      (getColD dfRef cfg.materialCode).zip (getColD dfRef col) = l₁ ++ (k, v) :: l₂ →
      (∀ q ∈ l₂, q.1 ≠ k) →
      (matchedColumnSeries dfIn dfRef (material_code_eng cfg) cfg.materialCode col).get? i
        = some v) := by
  have hget : (matchedColumnSeries dfIn dfRef (material_code_eng cfg)
      cfg.materialCode col).get? i =
      some ((buildRefDict dfRef cfg.materialCode col k).getD Cell.null) := by
    unfold matchedColumnSeries
    rw [List.get?_map, hk]
    rfl
  constructor
  · intro habs
    rw [hget, buildRefDict_eq_none dfRef cfg.materialCode col k habs]
    rfl
  · intro l₁ v l₂ hsplit hlast
    rw [hget, buildRefDict_eq_last dfRef cfg.materialCode col k v l₁ l₂ hsplit hlast]
    rfl

/-- Witness for C1: source code "A" occurs at reference rows 0 and 2, and
the matched cell takes the last occurrence's value "3". -/
theorem claim_C1_witness :
    (matchedColumnSeries dfInJoin dfRefJoin (material_code_eng cfgJoin)
        cfgJoin.materialCode "MatchedColumn1").get? 0 = some (Cell.str "3") :=
  (claim_C1_join_correctness cfgJoin dfInJoin dfRefJoin "MatchedColumn1" 0 (Cell.str "A")
      (by decide) (by decide) (by decide) (by decide) (by decide)).2
    [(Cell.str "A", Cell.str "1"), (Cell.str "B", Cell.str "2")] (Cell.str "3") []
    (by decide) (by decide)

/-- Claim C3 counterexample: the claim says every preserved name appears
as a column of the final output, but the default preserved name "Column1"
is not in the canonical order, so the final output has no such column
(neither populated nor null). -/
theorem claim_C3_counterexample :
    "Column1" ∈ defaultConfig.preserved ∧
    getCol (transform defaultConfig emptyDF emptyDF).1 "Column1" = none := by
  decide

/-- Claim C3 (amended): every preserved name that belongs to the canonical
order and is not shadowed by a matched or fixed column of the same name
appears in the final output: populated with the mapped source column's
values when `COLUMN_MAPPING` pairs it with an input column, and as an
all-null column — with a warning emitted — when it does not.  A preserved
name outside the canonical order is dropped by the final reindex (the
warning is still emitted when it is unmapped). -/
theorem claim_C3_amended (cfg : Config) (dfIn dfRef : DF) (col : String)
    (hwf : dfIn.WF)
    (hp : col ∈ cfg.preserved)
    (hord : col ∈ column_order)
    (hm : col ∉ cfg.matched)
    (hf : col ∉ cfg.fixedCols.map Prod.fst) :
    (∀ eng, findMappedSource dfIn col = some eng →
      getCol (transform cfg dfIn dfRef).1 col = some (getColD dfIn eng)) ∧
    (findMappedSource dfIn col = none →
      getCol (transform cfg dfIn dfRef).1 col =
        some (List.replicate (transform cfg dfIn dfRef).1.nrows Cell.null) ∧
      warnMissing col ∈ (transform cfg dfIn dfRef).2) := by
  have hlen : ∀ nm, hasCol dfIn nm = true → (getColD dfIn nm).length = dfIn.nrows :=
    fun nm h => getColD_length_of_hasCol dfIn hwf nm h
  have hlenC : hasCol dfIn (material_code_eng cfg) = true →
      (getColD dfIn (material_code_eng cfg)).length = dfIn.nrows :=
    fun h => hlen _ h
  obtain ⟨pok, pw, pother, pnone, psome⟩ :=
    projectFold_spec dfIn dfIn.nrows hlen cfg.preserved (emptyDF, []) (outOK_emptyDF _)
  have hps : projectStep cfg dfIn = cfg.preserved.foldl (projectOne dfIn) (emptyDF, []) := rfl
  constructor
  · intro eng heng
    have hval : getCol (projectStep cfg dfIn).1 col = some (getColD dfIn eng) := by
      rw [hps]; exact psome col hp eng heng
    have hjoin : getCol (joinStep cfg dfIn dfRef (projectStep cfg dfIn).1) col =
        some (getColD dfIn eng) := by
      rw [joinStep_preserve_of_not_matched cfg dfIn dfRef _ dfIn.nrows hlenC
        (hps ▸ pok) col hm]
      exact hval
    have hacc : getCol (accumulate cfg dfIn dfRef) col = some (getColD dfIn eng) := by
      unfold accumulate fixedStep
      rw [fixedFold_preserve cfg.fixedCols _ col hf]
      exact hjoin
    show getCol (reindexCols (accumulate cfg dfIn dfRef) column_order) col =
      some (getColD dfIn eng)
    rw [getCol_reindex_of_mem _ _ _ hord, hacc]
    rfl
  · intro hnone
    have hz := pnone col hp hnone
    have hval : getCol (projectStep cfg dfIn).1 col = none := by
      rw [hps, hz.1]; rfl
    have hjoin : getCol (joinStep cfg dfIn dfRef (projectStep cfg dfIn).1) col = none := by
      rw [joinStep_preserve_of_not_matched cfg dfIn dfRef _ dfIn.nrows hlenC
        (hps ▸ pok) col hm]
      exact hval
    have hacc : getCol (accumulate cfg dfIn dfRef) col = none := by
      unfold accumulate fixedStep
      rw [fixedFold_preserve cfg.fixedCols _ col hf]
      exact hjoin
    constructor
    · have hre := getCol_reindex_of_mem (accumulate cfg dfIn dfRef) column_order col hord
      rw [hacc] at hre
      simpa [transform, nrows_reindex] using hre
    · show warnMissing col ∈ (projectStep cfg dfIn).2
      rw [hps]
      exact hz.2

/-- Witness for C3 (amended): `品名` is preserved and mapped from the
input column DESCRIPTION, whose single value survives into the output;
`型号` is preserved but unmapped here, so it ends all-null with a
warning. -/
theorem claim_C3_witness :
    getCol (transform cfgProj dfInProj emptyDF).1 "品名" =
      some (getColD dfInProj "DESCRIPTION") ∧
    (getCol (transform cfgProj dfInProj emptyDF).1 "型号" =
      some (List.replicate (transform cfgProj dfInProj emptyDF).1.nrows Cell.null) ∧
     warnMissing "型号" ∈ (transform cfgProj dfInProj emptyDF).2) :=
  ⟨(claim_C3_amended cfgProj dfInProj emptyDF "品名" (by decide) (by decide) (by decide)
      (by decide) (by decide)).1 "DESCRIPTION" (by decide),
   (claim_C3_amended cfgProj dfInProj emptyDF "型号" (by decide) (by decide) (by decide)
      (by decide) (by decide)).2 (by decide)⟩

/-- Claim C4: after converting the item-number column to text and
trimming, the filter keeps exactly the rows strictly before the first row
whose cleaned text is "nan", empty, or a single space (the cut index is
the first bad position, every kept row is good, and every column is
truncated to the cut); when the input has no "NO." column, the step keeps
the table unchanged. -/
theorem claim_C4_truncation (df : DF) (hwf : df.WF) :
    (hasCol df "NO." = false → truncateStep df = df) ∧
    (hasCol df "NO." = true →
      (truncateStep df).nrows = truncIdx df ∧
      (∀ j, j < truncIdx df → isBadNO ((cleanedNO df).getD j Cell.null) = false) ∧
      (truncIdx df < df.nrows → isBadNO ((cleanedNO df).getD (truncIdx df) Cell.null) = true) ∧
      (∀ nm, nm ≠ "NO." →
        getCol (truncateStep df) nm = (getCol df nm).map (fun c => c.take (truncIdx df))) ∧
      getCol (truncateStep df) "NO." = some ((cleanedNO df).take (truncIdx df))) := by
  constructor
  · intro h
    simp [truncateStep, h]
  · intro h
    have hclen : (cleanedNO df).length = df.nrows := by
      rw [length_cleanedNO]
      exact getColD_length_of_hasCol df hwf _ h
    have hcne : df.cols ≠ [] := hasCol_cols_ne_nil df "NO." h
    have hnr2 : (setColSeries df "NO." (cleanedNO df)).nrows = df.nrows :=
      nrows_setColSeries_of_ne_nil df _ _ hcne
    have halign : alignSeries df.nrows (cleanedNO df) = cleanedNO df := by
      rw [← hclen]; exact alignSeries_self _
    have hno2 : getCol (setColSeries df "NO." (cleanedNO df)) "NO." =
        some (cleanedNO df) := by
      rw [getCol_setColSeries_self_of_ne_nil df _ _ hcne, halign]
    have hother2 : ∀ nm, nm ≠ "NO." →
        getCol (setColSeries df "NO." (cleanedNO df)) nm = getCol df nm :=
      fun nm hnm => getCol_setColSeries_other df _ _ nm hnm
    by_cases hany : (cleanedNO df).any isBadNO = true
    · have htr : truncateStep df =
          takeRows (setColSeries df "NO." (cleanedNO df))
            ((cleanedNO df).findIdx isBadNO) := by
        simp [truncateStep, h, hany]
      have hidx : truncIdx df = (cleanedNO df).findIdx isBadNO := by
        simp [truncIdx, hany]
      have hlt : (cleanedNO df).findIdx isBadNO < df.nrows := by
        rw [← hclen]; exact findIdx_lt_of_any _ _ hany
      refine ⟨?_, ?_, ?_, ?_, ?_⟩
      · rw [htr, hidx, nrows_takeRows, hnr2]
        exact Nat.min_eq_left (Nat.le_of_lt hlt)
      · intro j hj
        rw [hidx] at hj
        exact findIdx_getD_false isBadNO Cell.null (cleanedNO df) j hj
      · intro _
        rw [hidx]
        apply findIdx_getD_true
        rw [hclen]
        exact hlt
      · intro nm hnm
        rw [htr, hidx, getCol_takeRows, hother2 nm hnm]
      · rw [htr, hidx, getCol_takeRows, hno2]
        rfl
    · have hanyf : (cleanedNO df).any isBadNO = false := Bool.not_eq_true _ ▸ hany
      have htr : truncateStep df = setColSeries df "NO." (cleanedNO df) := by
        simp [truncateStep, h, hanyf]
      have hidx : truncIdx df = df.nrows := by
        simp [truncIdx, hanyf]
      have hgood : ∀ x ∈ cleanedNO df, ¬ isBadNO x = true :=
        List.any_eq_false.mp hanyf
      refine ⟨?_, ?_, ?_, ?_, ?_⟩
      · rw [htr, hnr2, hidx]
      · intro j hj
        rw [hidx, ← hclen] at hj
        exact Bool.not_eq_true _ ▸ hgood _ (getD_mem_of_lt _ j Cell.null hj)
      · intro hlt
        rw [hidx] at hlt
        exact absurd hlt (Nat.lt_irrefl _)
      · intro nm hnm
        rw [htr, hother2 nm hnm, hidx]
        match hg : getCol df nm with
        | none => rfl
        | some vals =>
          obtain ⟨p, hpmem, hpv⟩ := getCol_mem df nm vals hg
          have : vals.length = df.nrows := hpv ▸ hwf p hpmem
          simp [List.take_of_length_le (Nat.le_of_eq this)]
      · rw [htr, hno2, hidx, ← hclen, List.take_length]

/-- Witness for C4 at the spec's example: cleaned item numbers
["1", "2", "", "4"] keep exactly the first two rows. -/
theorem claim_C4_witness :
    (truncateStep dfTrunc).nrows = truncIdx dfTrunc ∧ truncIdx dfTrunc = 2 :=
  ⟨((claim_C4_truncation dfTrunc (by decide)).2 (by decide)).1, by decide⟩

/-- Witness for C10: the default configuration on empty frames yields a
zero-row canonical output. -/
theorem claim_C10_witness :
    (transform defaultConfig emptyDF emptyDF).1.nrows = 0 :=
  (claim_C10_zero_rows defaultConfig emptyDF emptyDF (by decide)
    (Or.inl (by decide))).1

/-- Claim C6 counterexample: the claim says leading/trailing whitespace is
always trimmed from the loaded table's column labels, but when the table
ends up with zero data rows (here a 10-row sheet: 9 skipped rows plus the
header) `df.empty` holds and the strip is skipped: the label " A " keeps
its padding. -/
theorem claim_C6_counterexample :
    (loadInput wbUntrimmed).cols.map Prod.fst = [" A "] ∧
    strTrim " A " ≠ " A " := by
  decide

/-- Claim C6 (amended): the loader reads the second sheet when the
workbook has at least two sheets, the first otherwise; the selected
sheet's first 9 rows are skipped and row 9 becomes the header; when any
data row remains the first one is discarded and the rows re-indexed, so
the loaded table has max(length - 11, 0) rows whose cells come from raw
rows 11 onward; and column labels are trimmed only when the loaded table
still has at least one data row and at least one column (a table left
with zero rows keeps its labels untrimmed). -/
theorem claim_C6_amended (wb : Workbook) :
    (2 ≤ List.length wb → selectedSheet wb = List.getD wb 1 []) ∧
    (List.length wb < 2 → selectedSheet wb = List.getD wb 0 []) ∧
    ((selectedSheet wb).length ≤ 10 → (loadInput wb).nrows = 0) ∧
    (10 < (selectedSheet wb).length →
      (loadInput wb).nrows = (selectedSheet wb).length - 11) ∧
    ((selectedSheet wb).length ≤ 9 → (loadInput wb).cols = []) ∧
    (∀ (j : Nat) (p : String × List Cell), (loadInput wb).cols.get? j = some p →
      p.2 = ((selectedSheet wb).drop 11).map (fun r => r.getD j Cell.null)) ∧
    (9 < (selectedSheet wb).length →
      (loadInput wb).cols.map Prod.fst =
        (if 12 ≤ (selectedSheet wb).length ∧ 0 < ((selectedSheet wb).getD 9 []).length
         then ((selectedSheet wb).getD 9 []).map (fun c => strTrim (cellToLabel c))
         else ((selectedSheet wb).getD 9 []).map cellToLabel)) := by
  have hsel1 : 2 ≤ List.length wb → selectedSheet wb = List.getD wb 1 [] := by
    intro h; simp [selectedSheet, h]
  have hsel2 : List.length wb < 2 → selectedSheet wb = List.getD wb 0 [] := by
    intro h; simp [selectedSheet, Nat.not_le.mpr h]
  cases h9 : (selectedSheet wb).drop 9 with
  | nil =>
    have hlen9 : (selectedSheet wb).length ≤ 9 := List.drop_eq_nil_iff.mp h9
    have hload : loadInput wb = emptyDF := by
      unfold loadInput
      rw [readInputRaw_of_nil wb h9]
      rfl
    refine ⟨hsel1, hsel2, ?_, ?_, ?_, ?_, ?_⟩
    · intro _; rw [hload]; rfl
    · intro h10; exact absurd h10 (by omega)
    · intro _; rw [hload]; rfl
    · intro j p hp
      rw [hload] at hp
      exact absurd hp (by simp [emptyDF])
    · intro h9lt; exact absurd h9lt (by omega)
  | cons header data =>
    have hlen10 : (selectedSheet wb).length = data.length + 10 := by
      have := congrArg List.length h9
      rw [List.length_drop] at this
      simp only [List.length_cons] at this
      omega
    have hdata10 : (selectedSheet wb).drop 10 = data := by
      have := List.tail_drop (selectedSheet wb) 9
      rw [h9] at this
      exact this.symm
    have hdata11 : (selectedSheet wb).drop 11 = data.tail := by
      have := List.tail_drop (selectedSheet wb) 10
      rw [hdata10] at this
      exact this.symm
    have hhead : (selectedSheet wb).getD 9 [] = header := by
      have hg : (selectedSheet wb).get? 9 = some header := by
        have := List.get?_drop (selectedSheet wb) 9 0
        rw [h9] at this
        simpa using this.symm
      rw [List.getD_eq_getElem?_getD, ← List.get?_eq_getElem?, hg]
      rfl
    have hraw : readInputRaw wb = mkDF header data := readInputRaw_of_cons wb header data h9
    match hd : data with
    | [] =>
      have hload : loadInput wb = mkDF header [] := by
        unfold loadInput
        rw [hraw, dropHeaderRow_of_nil _ (by rfl), stripIfNonempty_of_empty _ (by
          intro hcon
          exact absurd hcon.1 (by simp [mkDF]))]
      refine ⟨hsel1, hsel2, ?_, ?_, ?_, ?_, ?_⟩
      · intro _; rw [hload]; rfl
      · intro h10; rw [hlen10] at h10; simp at h10
      · intro hle; rw [hlen10] at hle; simp at hle
      · intro j p hp
        rw [hload, cols_mkDF] at hp
        obtain ⟨hj, hpj⟩ := get?_range_map _ header.length j p hp
        rw [hpj, hdata11]
        rfl
      · intro _
        rw [hload, hhead, cols_mkDF, List.map_map]
        have hcond : ¬ (12 ≤ (selectedSheet wb).length ∧ 0 < header.length) := by
          rw [hlen10]
          intro hcon
          have h12 := hcon.1
          simp only [List.length_nil] at h12
          omega
        rw [if_neg hcond]
        exact range_map_getD header cellToLabel Cell.null
    | d0 :: rest =>
      have hpos : 0 < (mkDF header (d0 :: rest)).nrows := by simp [mkDF]
      have hdrop : dropHeaderRow (mkDF header (d0 :: rest)) =
          ⟨rest.length, (List.range header.length).map
            (fun j => (cellToLabel (header.getD j Cell.null),
                       rest.map (fun r => r.getD j Cell.null)))⟩ := by
        rw [dropHeaderRow_of_pos _ hpos]
        unfold dropFirstRow
        rw [cols_mkDF, nrows_mkDF, List.map_map]
        refine congrArg₂ DF.mk (by simp) ?_
        apply List.map_congr_left
        intro j _
        rfl
      match hr : rest with
      | [] =>
        have hload : loadInput wb = ⟨0, (List.range header.length).map
            (fun j => (cellToLabel (header.getD j Cell.null), ([] : List Cell)))⟩ := by
          unfold loadInput
          rw [hraw, hdrop]
          rw [stripIfNonempty_of_empty _ (by intro hcon; exact absurd hcon.1 (by simp))]
          refine congrArg₂ DF.mk rfl ?_
          apply List.map_congr_left
          intro j _
          rfl
        refine ⟨hsel1, hsel2, ?_, ?_, ?_, ?_, ?_⟩
        · intro _; rw [hload]
        · intro _; rw [hload, hlen10]; simp
        · intro hle; rw [hlen10] at hle; simp at hle
        · intro j p hp
          rw [hload] at hp
          obtain ⟨hj, hpj⟩ := get?_range_map _ header.length j p hp
          rw [hpj, hdata11]
          rfl
        · intro _
          rw [hload, hhead, List.map_map]
          have hcond : ¬ (12 ≤ (selectedSheet wb).length ∧ 0 < header.length) := by
            rw [hlen10]
            intro hcon
            have h12 := hcon.1
            simp only [List.length_singleton] at h12
            omega
          rw [if_neg hcond]
          exact range_map_getD header cellToLabel Cell.null
      | r1 :: rest2 =>
        by_cases hh : 0 < header.length
        · have hcond : 0 < (dropHeaderRow (mkDF header (d0 :: r1 :: rest2))).nrows ∧
              0 < (dropHeaderRow (mkDF header (d0 :: r1 :: rest2))).cols.length := by
            rw [hdrop]
            simpa using hh
          have hload : loadInput wb = ⟨(r1 :: rest2).length,
              (List.range header.length).map
                (fun j => (strTrim (cellToLabel (header.getD j Cell.null)),
                           (r1 :: rest2).map (fun r => r.getD j Cell.null)))⟩ := by
            unfold loadInput
            rw [hraw, stripIfNonempty_of_nonempty _ hcond, hdrop]
            unfold stripLabels
            rw [List.map_map]
            refine congrArg₂ DF.mk rfl ?_
            apply List.map_congr_left
            intro j _
            rfl
          refine ⟨hsel1, hsel2, ?_, ?_, ?_, ?_, ?_⟩
          · intro hle; rw [hlen10] at hle
            simp only [List.length_cons] at hle
            exact absurd hle (by omega)
          · intro _; rw [hload, hlen10]
            simp only [List.length_cons]
            omega
          · intro hle; rw [hlen10] at hle; exact absurd hle (by omega)
          · intro j p hp
            rw [hload] at hp
            obtain ⟨hj, hpj⟩ := get?_range_map _ header.length j p hp
            rw [hpj, hdata11]
            rfl
          · intro _
            rw [hload, hhead, List.map_map]
            have hcond2 : 12 ≤ (selectedSheet wb).length ∧ 0 < header.length := by
              rw [hlen10]
              simp only [List.length_cons]
              exact ⟨by omega, hh⟩
            rw [if_pos hcond2]
            exact range_map_getD header (fun c => strTrim (cellToLabel c)) Cell.null
        · have hhz : header.length = 0 := by omega
          have hload : loadInput wb = ⟨(r1 :: rest2).length, []⟩ := by
            unfold loadInput
            rw [hraw, hdrop, hhz]
            rw [stripIfNonempty_of_empty _ (by intro hcon; simpa using hcon.2)]
            rfl
          refine ⟨hsel1, hsel2, ?_, ?_, ?_, ?_, ?_⟩
          · intro hle; rw [hlen10] at hle
            simp only [List.length_cons] at hle
            exact absurd hle (by omega)
          · intro _; rw [hload, hlen10]
            simp only [List.length_cons]
            omega
          · intro hle; rw [hlen10] at hle; exact absurd hle (by omega)
          · intro j p hp
            rw [hload] at hp
            exact absurd hp (by simp)
          · intro _
            rw [hload, hhead]
            have hcond : ¬ (12 ≤ (selectedSheet wb).length ∧ 0 < header.length) := by
              rw [hhz]
              omega
            rw [if_neg hcond]
            have : header = [] := List.length_eq_zero.mp hhz
            rw [this]
            rfl

/-- Witness for C6 (amended) on a 13-row single-sheet workbook: two data
rows survive and the padded header label " A " is trimmed to "A". -/
theorem claim_C6_witness :
    (loadInput wbLoad).nrows = (selectedSheet wbLoad).length - 11 ∧
    (loadInput wbLoad).cols.map Prod.fst =
      (if 12 ≤ (selectedSheet wbLoad).length ∧ 0 < ((selectedSheet wbLoad).getD 9 []).length
       then ((selectedSheet wbLoad).getD 9 []).map (fun c => strTrim (cellToLabel c))
       else ((selectedSheet wbLoad).getD 9 []).map cellToLabel) :=
  ⟨(claim_C6_amended wbLoad).2.2.2.1 (by decide),
   (claim_C6_amended wbLoad).2.2.2.2.2.2 (by decide)⟩

end ExcelConverter
